import Mathlib

/-!
Shallow embedding of `caffe2/core/net_simple.cc` (class `SimpleNet`): the
sequential net executor.  Protobuf messages (`OperatorDef`, `NetDef`) are
modelled as Lean structures; operator instances are modelled as state
transformers over an abstract workspace type `W`; wall-clock measurements
(`Timer`) are an input oracle; `float` values are exact rationals except for
the divisions whose divisor may be zero, which are mapped into an IEEE-style
value type `F` so that division by zero is represented faithfully
(infinity / NaN instead of a made-up number).
-/

namespace Caffe2

/-- Device placement payload.  `SimpleNet` never inspects it, it only copies
it around, so it is abstracted to an atomic value. -/
structure DeviceOption where
  dev : Nat
deriving DecidableEq, Repr

/-- The protobuf `OperatorDef` fields that `net_simple.cc` reads.
`device_option = none` models `has_device_option() == false`. -/
structure OperatorDef where
  name : String
  type : String
  input : List String
  output : List String
  device_option : Option DeviceOption
deriving DecidableEq, Repr

/-- `operator_def.has_device_option()`. -/
def OperatorDef.has_device_option (o : OperatorDef) : Bool :=
  o.device_option.isSome

/-- The protobuf `NetDef` fields that `net_simple.cc` reads. -/
structure NetDef where
  name : String
  device_option : Option DeviceOption
  op : List OperatorDef
deriving DecidableEq, Repr

/-- `net_def.has_device_option()`. -/
def NetDef.has_device_option (n : NetDef) : Bool :=
  n.device_option.isSome

/-- Device-placement propagation done by the `SimpleNet` constructor for one
operator: when the operator def has no device option but the net def has a
default one, a copy `temp_def` of the operator def is made and the net's
device option is copied into it (`net_simple.cc` lines 102-108); otherwise
the operator def is used as is (lines 109-113). -/
def effectiveOpDef (net_def : NetDef) (operator_def : OperatorDef) : OperatorDef :=
  if !operator_def.has_device_option && net_def.has_device_option then
    { operator_def with device_option := net_def.device_option }
  else operator_def

/-- The list of operator defs actually handed to `CreateOperator` by the
`SimpleNet` constructor, one per operator of the net, in net order. -/
def constructDefs (net_def : NetDef) : List OperatorDef :=
  net_def.op.map (effectiveOpDef net_def)

/-- Estimated cost of one operator, `OpSchema::Cost` (`flops`, `bytes_moved`,
`params_bytes`, all `uint64_t`). -/
structure Cost where
  flops : Nat
  bytes_moved : Nat
  params_bytes : Nat
deriving DecidableEq, Repr

/-- A constructed operator instance (`OperatorBase`): its debug def, its
`Run()` method modelled as a state transformer over the workspace type `W`
returning the success flag and the mutated workspace, and the cost estimate
that the schema registry would produce for it (`none` when the operator's
type has no schema or no cost-inference function). -/
structure OpInstance (W : Type) where
  ddef : OperatorDef
  run : W → Bool × W
  cost : Option Cost

/-- Observable events of an execution: observer start/stop notifications and
the invocation of the operator instance at a given list position. -/
inductive Event where
  | obsStart
  | obsStop
  | opRun (idx : Nat)
deriving DecidableEq, Repr

/-- Result of `SimpleNet::Run`: the returned flag, the final workspace, and
the trace of observable events in order. -/
structure RunResult (W : Type) where
  ok : Bool
  ws : W
  trace : List Event
deriving Repr

variable {W : Type}

/-- The operator loop of `SimpleNet::Run` (lines 121-140), started at list
position `idx`: run each instance in order; on the first failure stop at
once and return `false`. -/
def runOpsFrom (ops : List (OpInstance W)) (idx : Nat) (w : W) :
    Bool × W × List Event :=
  match ops with
  | [] => (true, w, [])
  | op :: rest =>
    let r := op.run w
    if r.1 then
      let rec' := runOpsFrom rest (idx + 1) r.2
      (rec'.1, rec'.2.1, Event.opRun idx :: rec'.2.2)
    else
      (false, r.2, [Event.opRun idx])

/-- The workspace obtained by running every instance of `ops` in order,
keeping whatever mutation each `Run()` performed (also a failing one). -/
def threadState (ops : List (OpInstance W)) (w : W) : W :=
  ops.foldl (fun wa op => (op.run wa).2) w

/-- `SimpleNet::Run` (lines 118-143): notify observers of start, run every
instance in order, return `false` at the first failure (skipping the stop
notification), otherwise notify observers of stop and return `true`. -/
def SimpleNet.Run (ops : List (OpInstance W)) (w : W) : RunResult W :=
  let r := runOpsFrom ops 0 w
  if r.1 then
    ⟨true, r.2.1, Event.obsStart :: r.2.2 ++ [Event.obsStop]⟩
  else
    ⟨false, r.2.1, Event.obsStart :: r.2.2⟩

/-- `SimpleNet::RunAsync` (lines 145-147): `return Run();`. -/
def SimpleNet.RunAsync (ops : List (OpInstance W)) (w : W) : RunResult W :=
  SimpleNet.Run ops w

/-- Every instance of `ops` succeeds from every workspace state. -/
def allSucceed (ops : List (OpInstance W)) : Prop :=
  ∀ op ∈ ops, ∀ w : W, (op.run w).1 = true

/-! ## Float model for the benchmark

Measured times are exact rationals.  The only place where `float` semantics
is observably different from `ℚ` within the verified claims is division with
a possibly-zero divisor (`millis / main_runs`, `time_per_op[i] /= main_runs`),
so that division is mapped into an IEEE-style result type. -/

/-- An IEEE-style `float` value: finite (exact rational), the two infinities,
or NaN. -/
inductive F where
  | fin (q : ℚ)
  | pinf
  | ninf
  | nan
deriving DecidableEq, Repr

/-- `true` exactly on finite values. -/
def F.isFinite : F → Bool
  | F.fin _ => true
  | _ => false

/-- IEEE-style division of two finite values: for a zero divisor the result
is an infinity of the dividend's sign, or NaN for `0/0`; otherwise the exact
quotient. -/
def fdiv (x y : ℚ) : F :=
  if y = 0 then
    if 0 < x then F.pinf else if x < 0 then F.ninf else F.nan
  else F.fin (x / y)

/-! ## Benchmark (`SimpleNet::TEST_Benchmark`, lines 156-306) -/

/-- The wall-clock oracle standing for `Timer`: `millis` is the value that
`timer.MilliSeconds()` reports for the timed aggregate phase (line 181), and
`spent i idx` is the value it reports for operator `idx` in detail-phase
iteration `i` (line 226). -/
structure Clock where
  millis : ℚ
  spent : Nat → Nat → ℚ

/-- `CaffeMap<string, float>` (`std::map`) with the `m[k] += v` update:
an association list kept in ascending key order; an absent key is
default-inserted as `0` first. -/
def mapAdd (k : String) (v : ℚ) : List (String × ℚ) → List (String × ℚ)
  | [] => [(k, v)]
  | (k', v') :: rest =>
    if k = k' then (k', v' + v) :: rest
    else if k < k' then (k, v) :: (k', v') :: rest
    else (k', v') :: mapAdd k v rest

/-- `time_per_op[idx] += v` on a vector modelled as a list. -/
def addAt (l : List ℚ) (idx : Nat) (v : ℚ) : List ℚ :=
  l.set idx (l.getD idx 0 + v)

/-- The accumulators of the detail phase: `time_per_op` (per instance) and
the four per-operator-type maps.  The per-instance cost vectors feed only
per-instance log lines and are omitted. -/
structure BAcc where
  time_per_op : List ℚ
  time_per_op_type : List (String × ℚ)
  flops_per_op_type : List (String × ℚ)
  memory_bytes_per_op_type : List (String × ℚ)
  param_bytes_per_op_type : List (String × ℚ)
deriving Repr

/-- Add one operator's cost estimate to the three per-type cost maps
(lines 203-216); a no-op when the operator's type has no cost function. -/
def accCost (op : OpInstance W) (acc : BAcc) : BAcc :=
  match op.cost with
  | none => acc
  | some c =>
    { acc with
      flops_per_op_type := mapAdd op.ddef.type (c.flops : ℚ) acc.flops_per_op_type
      memory_bytes_per_op_type :=
        mapAdd op.ddef.type (c.bytes_moved : ℚ) acc.memory_bytes_per_op_type
      param_bytes_per_op_type :=
        mapAdd op.ddef.type (c.params_bytes : ℚ) acc.param_bytes_per_op_type }

/-- Outcome of a phase that can fail mid-way: success flag, workspace,
accumulators and event trace at the end or at the abort point. -/
structure DetailOut (W : Type) where
  ok : Bool
  ws : W
  acc : BAcc
  trace : List Event

/-- The inner operator loop of one detail-phase iteration `i`
(lines 199-230), started at position `idx`: on the first run (`i = 0`)
gather each operator's cost estimate, then run each operator individually,
accumulating its measured time per instance and per type; a failing operator
aborts the benchmark (`CAFFE_ENFORCE`, line 219). -/
def detailOps (clock : Clock) (i : Nat) (ops : List (OpInstance W))
    (idx : Nat) (w : W) (acc : BAcc) : DetailOut W :=
  match ops with
  | [] => ⟨true, w, acc, []⟩
  | op :: rest =>
    let acc1 := if i = 0 then accCost op acc else acc
    let r := op.run w
    if r.1 then
      let spent := clock.spent i idx
      let acc2 :=
        { acc1 with
          time_per_op := addAt acc1.time_per_op idx spent
          time_per_op_type := mapAdd op.ddef.type spent acc1.time_per_op_type }
      let rec' := detailOps clock i rest (idx + 1) r.2 acc2
      ⟨rec'.ok, rec'.ws, rec'.acc, Event.opRun idx :: rec'.trace⟩
    else ⟨false, r.2, acc1, [Event.opRun idx]⟩

/-- The detail-phase iteration loop (line 195): `n` remaining iterations,
the next one being iteration `i`. -/
def detailIters (clock : Clock) (ops : List (OpInstance W)) :
    Nat → Nat → W → BAcc → DetailOut W
  | 0, _, w, acc => ⟨true, w, acc, []⟩
  | n + 1, i, w, acc =>
    let r := detailOps clock i ops 0 w acc
    if r.ok then
      let rest := detailIters clock ops n (i + 1) r.ws r.acc
      ⟨rest.ok, rest.ws, rest.acc, r.trace ++ rest.trace⟩
    else ⟨false, r.ws, r.acc, r.trace⟩

/-- The whole detail phase (lines 194-231): `main_runs` iterations starting
from empty accumulators (`time_per_op` is zero-initialised with one slot per
operator, line 186). -/
def detailPhase (clock : Clock) (ops : List (OpInstance W)) (main_runs : Nat)
    (w : W) : DetailOut W :=
  detailIters clock ops main_runs 0 w
    ⟨List.replicate ops.length 0, [], [], [], []⟩

/-- A loop of `n` calls to `SimpleNet::Run` (the warmup loop, line 167, and
the timed main loop, line 178): stop at the first failing call. -/
def benchRuns (ops : List (OpInstance W)) : Nat → W → RunResult W
  | 0, w => ⟨true, w, []⟩
  | n + 1, w =>
    let r := SimpleNet.Run ops w
    if r.ok then
      let rest := benchRuns ops n r.ws
      ⟨rest.ok, rest.ws, r.trace ++ rest.trace⟩
    else ⟨false, r.ws, r.trace⟩

/-- `PairLargerThan` (lines 150-153): the comparator handed to `std::sort`,
ordering pairs by strictly larger second component. -/
def PairLargerThan (x y : String × ℚ) : Bool :=
  decide (x.2 > y.2)

/-- The postcondition of `std::sort(first, last, comp)` (line 278), and
nothing more: the output is a permutation of the input in which no element
compares strictly greater (by `comp`) than an element before it.  `std::sort`
is not stable — the relative order of elements the comparator considers
equivalent is unspecified — so the sorted vector is modelled as *any* list
satisfying this relation, not as one particular sorting algorithm. -/
def StdSortedBy (comp : (String × ℚ) → (String × ℚ) → Bool)
    (input output : List (String × ℚ)) : Prop :=
  output.Perm input ∧ output.Pairwise (fun a b => comp b a = false)

/-- `total_metric` for one metric (lines 282-285): the loop over the sorted
vector summing the normalised values. -/
def metricTotalOn (s : List (String × ℚ)) (norm : ℚ) : ℚ :=
  s.foldl (fun t p => t + p.2 * norm) 0

/-- The percentage printed for one entry value `v` (lines 287-289): its
share of `total_metric` when that is positive, otherwise `0`. -/
def reportPercentOn (total v norm : ℚ) : ℚ :=
  if 0 < total then 100 * v * norm / total else 0

/-- One line of the per-metric report (lines 286-297): an entry line with
normalised value, percentage and operator type, or the final total line. -/
inductive ReportLine where
  | entry (value percent : ℚ) (opType : String)
  | total (value : ℚ)
deriving DecidableEq, Repr

/-- The report logged for one metric (lines 274-297) as a function of the
sorted vector `s` produced by `std::sort`: the sorted entries, each with its
normalised value and percentage, followed by the grand total. -/
def metricReportOn (s : List (String × ℚ)) (norm : ℚ) : List ReportLine :=
  s.map (fun p =>
    ReportLine.entry (p.2 * norm) (reportPercentOn (metricTotalOn s norm) p.2 norm) p.1)
  ++ [ReportLine.total (metricTotalOn s norm)]

/-- The four per-operator-type reports of the detail phase (lines 262-298),
with normalizers `{1.0/main_runs, 1.0e-9, 1.0e-6, 1.0e-6}`: `reports` is an
admissible log output when each metric's map was sorted into some vector
satisfying the `std::sort` postcondition and rendered by `metricReportOn`.
(The report is `LOG(INFO)` text only; the returned vector of
`TEST_Benchmark` does not depend on it.) -/
def BenchReportOf (acc : BAcc) (main_runs : ℚ)
    (reports : List (List ReportLine)) : Prop :=
  ∃ s1 s2 s3 s4,
    StdSortedBy PairLargerThan acc.time_per_op_type s1
    ∧ StdSortedBy PairLargerThan acc.flops_per_op_type s2
    ∧ StdSortedBy PairLargerThan acc.memory_bytes_per_op_type s3
    ∧ StdSortedBy PairLargerThan acc.param_bytes_per_op_type s4
    ∧ reports = [metricReportOn s1 (1 / main_runs),
                 metricReportOn s2 (1 / 1000000000),
                 metricReportOn s3 (1 / 1000000),
                 metricReportOn s4 (1 / 1000000)]

/-- The abort causes of `TEST_Benchmark` (each a `CAFFE_ENFORCE`, which
throws instead of returning). -/
inductive BenchAbort where
  | warmupNegative
  | warmupRunFailed
  | mainNegative
  | mainRunFailed
  | individualRunFailed
deriving DecidableEq, Repr

/-- What a call to `TEST_Benchmark` produces: the returned vector (or the
abort cause), the trace of operator invocations and observer notifications,
and the final workspace.  The per-metric report is diagnostic `LOG(INFO)`
text whose entry order depends on `std::sort`'s unspecified tie behaviour;
its admissible contents are captured by `BenchReportOf` over the detail
phase's accumulators rather than returned here. -/
structure BenchResult (W : Type) where
  result : Except BenchAbort (List F)
  trace : List Event
  ws : W

/-- The returned vector (lines 300-305): every `time_per_op` slot divided by
`main_runs`, with `millis / main_runs` inserted at the front. -/
def finalTimes (millis : ℚ) (time_per_op : List ℚ) (main_runs : ℚ) : List F :=
  fdiv millis main_runs :: time_per_op.map (fun t => fdiv t main_runs)

/-- `SimpleNet::TEST_Benchmark` (lines 156-306).  `CAFFE_ENFORCE` aborts are
returned as `Except.error`; the order of the checks and loops follows the
source: warmup-count check, warmup loop, main-count check, timed main loop,
then the optional detail phase, and finally the returned vector. -/
def TEST_Benchmark (clock : Clock) (ops : List (OpInstance W))
    (warmup_runs main_runs : Int) (run_individual : Bool) (w : W) :
    BenchResult W :=
  if warmup_runs < 0 then ⟨Except.error BenchAbort.warmupNegative, [], w⟩
  else
    let wu := benchRuns ops warmup_runs.toNat w
    if !wu.ok then
      ⟨Except.error BenchAbort.warmupRunFailed, wu.trace, wu.ws⟩
    else if main_runs < 0 then
      ⟨Except.error BenchAbort.mainNegative, wu.trace, wu.ws⟩
    else
      let mn := benchRuns ops main_runs.toNat wu.ws
      if !mn.ok then
        ⟨Except.error BenchAbort.mainRunFailed, wu.trace ++ mn.trace, mn.ws⟩
      else if run_individual then
        let d := detailPhase clock ops main_runs.toNat mn.ws
        if !d.ok then
          ⟨Except.error BenchAbort.individualRunFailed,
            wu.trace ++ mn.trace ++ d.trace, d.ws⟩
        else
          ⟨Except.ok (finalTimes clock.millis d.acc.time_per_op (main_runs : ℚ)),
            wu.trace ++ mn.trace ++ d.trace, d.ws⟩
      else
        ⟨Except.ok (finalTimes clock.millis (List.replicate ops.length 0)
            (main_runs : ℚ)),
          wu.trace ++ mn.trace, mn.ws⟩

/-! ## Concrete instances used to exercise the theorems -/

/-- A sample operator def without a device option. -/
def defA : OperatorDef := ⟨"opA", "TypeA", [], ["outA"], none⟩

/-- A sample operator def with its own device option. -/
def defB : OperatorDef := ⟨"opB", "TypeB", [], ["outB"], some ⟨7⟩⟩

/-- A sample net with a default device option, whose first operator lacks one
and whose second operator carries its own. -/
def netAB : NetDef := ⟨"netAB", some ⟨3⟩, [defA, defB]⟩

/-- A succeeding operator instance over a counter workspace: increments it. -/
def succOp : OpInstance Nat := ⟨defA, fun n => (true, n + 1), none⟩

/-- A failing operator instance over a counter workspace: adds 100 and
reports failure. -/
def failOp : OpInstance Nat := ⟨defA, fun n => (false, n + 100), none⟩

/-- A succeeding operator instance over the trivial workspace. -/
def unitOp : OpInstance Unit := ⟨defA, fun w => (true, w), none⟩

/-- A sample clock: the aggregate phase measures 5 ms, every individual
operator run measures 1 ms. -/
def cClock : Clock := ⟨5, fun _ _ => 1⟩

/-- Sample detail-phase accumulators: a two-entry time-per-type map, no cost
entries. -/
def accW : BAcc := ⟨[], [("TypeA", 1), ("TypeB", 3)], [], [], []⟩

/-- An admissible `std::sort` output for `accW`'s time-per-type map. -/
def sortW : List (String × ℚ) := [("TypeB", 3), ("TypeA", 1)]

/-- The report rendered from that admissible sort output. -/
def reportsW : List (List ReportLine) :=
  [metricReportOn sortW (1 / 1),
   metricReportOn [] (1 / 1000000000),
   metricReportOn [] (1 / 1000000),
   metricReportOn [] (1 / 1000000)]

/-- A per-type map with two equal-valued entries, in traversal (map) order. -/
def tieMap : List (String × ℚ) := [("TypeA", 1), ("TypeB", 1)]

/-- The same entries in the opposite order. -/
def tieRev : List (String × ℚ) := [("TypeB", 1), ("TypeA", 1)]

/-! ## Lemmas about `SimpleNet::Run` -/

theorem allSucceed_cons {op : OpInstance W} {rest : List (OpInstance W)}
    (h : allSucceed (op :: rest)) :
    (∀ w : W, (op.run w).1 = true) ∧ allSucceed rest :=
  ⟨fun w => h op (List.mem_cons_self op rest) w,
   fun o ho w => h o (List.mem_cons_of_mem op ho) w⟩

theorem runOpsFrom_allSucceed (ops : List (OpInstance W)) (idx : Nat) (w : W)
    (hall : allSucceed ops) :
    runOpsFrom ops idx w
      = (true, threadState ops w, (List.range' idx ops.length).map Event.opRun) := by
  induction ops generalizing idx w with
  | nil => simp [runOpsFrom, threadState]
  | cons op rest ih =>
    obtain ⟨hop, hrest⟩ := allSucceed_cons hall
    simp [runOpsFrom, hop w, ih (idx + 1) (op.run w).2 hrest, threadState,
      List.range'_succ]

theorem Run_allSucceed (ops : List (OpInstance W)) (w : W)
    (hall : allSucceed ops) :
    SimpleNet.Run ops w
      = ⟨true, threadState ops w,
          Event.obsStart :: (List.range ops.length).map Event.opRun
            ++ [Event.obsStop]⟩ := by
  simp [SimpleNet.Run, runOpsFrom_allSucceed ops 0 w hall, List.range_eq_range']

theorem runOpsFrom_append (pre rest : List (OpInstance W)) (idx : Nat) (w : W)
    (hpre : allSucceed pre) :
    runOpsFrom (pre ++ rest) idx w
      = ((runOpsFrom rest (idx + pre.length) (threadState pre w)).1,
         (runOpsFrom rest (idx + pre.length) (threadState pre w)).2.1,
         (List.range' idx pre.length).map Event.opRun
           ++ (runOpsFrom rest (idx + pre.length) (threadState pre w)).2.2) := by
  induction pre generalizing idx w with
  | nil => simp [threadState]
  | cons op pre' ih =>
    obtain ⟨hop, hpre'⟩ := allSucceed_cons hpre
    simp only [List.cons_append, runOpsFrom, hop w, if_true, List.append_eq]
    rw [ih (idx + 1) (op.run w).2 hpre']
    simp [threadState, List.range'_succ, Nat.add_assoc, Nat.add_comm 1]

theorem runOpsFrom_events (ops : List (OpInstance W)) (idx : Nat) (w : W) :
    ∀ e ∈ (runOpsFrom ops idx w).2.2, ∃ j, e = Event.opRun j := by
  induction ops generalizing idx w with
  | nil => simp [runOpsFrom]
  | cons op rest ih =>
    intro e he
    by_cases hr : (op.run w).1 = true
    · simp only [runOpsFrom, hr, if_true, List.mem_cons] at he
      rcases he with rfl | he'
      · exact ⟨idx, rfl⟩
      · exact ih (idx + 1) (op.run w).2 e he'
    · simp only [runOpsFrom, Bool.not_eq_true] at hr
      simp only [runOpsFrom, hr, Bool.false_eq_true, if_false,
        List.mem_singleton] at he
      exact ⟨idx, he⟩

theorem runOpsFrom_count_obs (ops : List (OpInstance W)) (idx : Nat) (w : W) :
    (runOpsFrom ops idx w).2.2.count Event.obsStart = 0
    ∧ (runOpsFrom ops idx w).2.2.count Event.obsStop = 0 := by
  constructor <;>
  · rw [List.count_eq_zero]
    intro hmem
    rcases runOpsFrom_events ops idx w _ hmem with ⟨j, hj⟩
    cases hj

theorem allSucceed_succOp_pair : allSucceed [succOp, succOp] := by
  intro op hop w
  simp only [List.mem_cons, List.not_mem_nil, or_false] at hop
  rcases hop with rfl | rfl <;> rfl

theorem allSucceed_succOp_single : allSucceed [succOp] := by
  intro op hop w
  rw [List.mem_singleton] at hop
  subst hop
  rfl

theorem allSucceed_unitOp : allSucceed [unitOp] := by
  intro op hop w
  rw [List.mem_singleton] at hop
  subst hop
  rfl

theorem failOp_fails : ∀ w : Nat, (failOp.run w).1 = false := fun _ => rfl

/-! ## Lemmas about the benchmark accumulators -/

theorem addAt_length (l : List ℚ) (idx : Nat) (v : ℚ) :
    (addAt l idx v).length = l.length := by
  simp [addAt]

theorem addAt_cons_succ (a : ℚ) (as : List ℚ) (i : Nat) (v : ℚ) :
    addAt (a :: as) (i + 1) v = a :: addAt as i v := by
  simp [addAt, List.getD]

theorem addAt_getD (l : List ℚ) (idx j : Nat) (v : ℚ) (h : idx < l.length) :
    (addAt l idx v).getD j 0 = l.getD j 0 + if j = idx then v else 0 := by
  induction l generalizing idx j with
  | nil => simp at h
  | cons a as ih =>
    cases idx with
    | zero =>
      cases j with
      | zero => simp [addAt, List.getD]
      | succ j' => simp [addAt, List.getD]
    | succ i' =>
      cases j with
      | zero => simp [addAt_cons_succ, List.getD]
      | succ j' =>
        have hlt : i' < as.length := by simpa using h
        simp only [addAt_cons_succ, List.getD_cons_succ, Nat.succ_inj]
        exact ih i' j' hlt

theorem accCost_time_per_op (op : OpInstance W) (acc : BAcc) :
    (accCost op acc).time_per_op = acc.time_per_op := by
  cases hc : op.cost <;> simp [accCost, hc]

theorem getD_replicate_zero (n j : Nat) :
    (List.replicate n (0 : ℚ)).getD j 0 = 0 := by
  induction n generalizing j with
  | zero => simp [List.getD]
  | succ n' ih =>
    cases j with
    | zero => simp [List.replicate, List.getD]
    | succ j' =>
      rw [List.replicate, List.getD_cons_succ]
      exact ih j'

theorem detailOps_allSucceed (clock : Clock) (i : Nat)
    (ops : List (OpInstance W)) (idx : Nat) (w : W) (acc : BAcc)
    (hall : allSucceed ops)
    (hlen : idx + ops.length ≤ acc.time_per_op.length) :
    (detailOps clock i ops idx w acc).ok = true
    ∧ (detailOps clock i ops idx w acc).ws = threadState ops w
    ∧ (detailOps clock i ops idx w acc).trace
        = (List.range' idx ops.length).map Event.opRun
    ∧ (detailOps clock i ops idx w acc).acc.time_per_op.length
        = acc.time_per_op.length
    ∧ ∀ j : Nat,
        (detailOps clock i ops idx w acc).acc.time_per_op.getD j 0
          = acc.time_per_op.getD j 0
            + (if idx ≤ j ∧ j < idx + ops.length then clock.spent i j else 0) := by
  induction ops generalizing idx w acc with
  | nil =>
    refine ⟨rfl, rfl, by simp [detailOps], rfl, ?_⟩
    intro j
    simp [detailOps]
  | cons op rest ih =>
    obtain ⟨hop, hrest⟩ := allSucceed_cons hall
    have hidx : idx < acc.time_per_op.length := by
      simp only [List.length_cons] at hlen
      omega
    set acc1 := if i = 0 then accCost op acc else acc with hacc1
    have hacc1t : acc1.time_per_op = acc.time_per_op := by
      rw [hacc1]
      split
      · exact accCost_time_per_op op acc
      · rfl
    set acc2 :=
      { acc1 with
        time_per_op := addAt acc1.time_per_op idx (clock.spent i idx)
        time_per_op_type :=
          mapAdd op.ddef.type (clock.spent i idx) acc1.time_per_op_type }
      with hacc2
    have hacc2t : acc2.time_per_op.length = acc.time_per_op.length := by
      rw [hacc2]
      simp [addAt_length, hacc1t]
    have hlen2 : (idx + 1) + rest.length ≤ acc2.time_per_op.length := by
      rw [hacc2t]
      simp only [List.length_cons] at hlen
      omega
    obtain ⟨h1, h2, h3, h4, h5⟩ :=
      ih (idx + 1) (op.run w).2 acc2 hrest hlen2
    have hstep :
        detailOps clock i (op :: rest) idx w acc
          = ⟨(detailOps clock i rest (idx + 1) (op.run w).2 acc2).ok,
             (detailOps clock i rest (idx + 1) (op.run w).2 acc2).ws,
             (detailOps clock i rest (idx + 1) (op.run w).2 acc2).acc,
             Event.opRun idx
               :: (detailOps clock i rest (idx + 1) (op.run w).2 acc2).trace⟩ := by
      simp only [detailOps, hop w, if_true]
    rw [hstep]
    refine ⟨h1, ?_, ?_, ?_, ?_⟩
    · simpa [threadState] using h2
    · simp [h3, List.range'_succ]
    · simpa [hacc2t] using h4
    · intro j
      have hset := addAt_getD acc1.time_per_op idx j (clock.spent i idx)
        (by rw [hacc1t]; exact hidx)
      have hj := h5 j
      have hacc2g : acc2.time_per_op.getD j 0
          = acc.time_per_op.getD j 0 + (if j = idx then clock.spent i j else 0) := by
        rw [hacc2]
        simp only []
        rw [hset, hacc1t]
        by_cases hje : j = idx
        · subst hje
          simp
        · simp [hje]
      rw [hj, hacc2g]
      simp only [List.length_cons]
      split_ifs <;> first | ring1 | (exfalso; omega)

theorem detailIters_allSucceed (clock : Clock) (ops : List (OpInstance W))
    (n i : Nat) (w : W) (acc : BAcc) (hall : allSucceed ops)
    (hlen : ops.length ≤ acc.time_per_op.length) :
    (detailIters clock ops n i w acc).ok = true
    ∧ (detailIters clock ops n i w acc).acc.time_per_op.length
        = acc.time_per_op.length
    ∧ ∀ j : Nat,
        (detailIters clock ops n i w acc).acc.time_per_op.getD j 0
          = acc.time_per_op.getD j 0
            + (if j < ops.length
               then ((List.range' i n).map (fun t => clock.spent t j)).sum
               else 0) := by
  induction n generalizing i w acc with
  | zero =>
    refine ⟨rfl, rfl, ?_⟩
    intro j
    simp [detailIters]
  | succ n' ih =>
    obtain ⟨h1, h2, h3, h4, h5⟩ :=
      detailOps_allSucceed clock i ops 0 w acc hall (by simpa using hlen)
    have hlen' : ops.length
        ≤ (detailOps clock i ops 0 w acc).acc.time_per_op.length := by
      rw [h4]; exact hlen
    obtain ⟨g1, g2, g3⟩ :=
      ih (i + 1) (detailOps clock i ops 0 w acc).ws
        (detailOps clock i ops 0 w acc).acc hlen'
    have hstep :
        detailIters clock ops (n' + 1) i w acc
          = ⟨(detailIters clock ops n' (i + 1) (detailOps clock i ops 0 w acc).ws
                (detailOps clock i ops 0 w acc).acc).ok,
             (detailIters clock ops n' (i + 1) (detailOps clock i ops 0 w acc).ws
                (detailOps clock i ops 0 w acc).acc).ws,
             (detailIters clock ops n' (i + 1) (detailOps clock i ops 0 w acc).ws
                (detailOps clock i ops 0 w acc).acc).acc,
             (detailOps clock i ops 0 w acc).trace
               ++ (detailIters clock ops n' (i + 1)
                     (detailOps clock i ops 0 w acc).ws
                     (detailOps clock i ops 0 w acc).acc).trace⟩ := by
      simp only [detailIters, h1, if_true]
    rw [hstep]
    refine ⟨g1, by rw [g2, h4], ?_⟩
    intro j
    rw [g3 j, h5 j]
    by_cases hj : j < ops.length
    · have hin : 0 ≤ j ∧ j < 0 + ops.length := by omega
      rw [if_pos hin, if_pos hj, if_pos hj, List.range'_succ]
      simp only [List.map_cons, List.sum_cons]
      ring
    · have hnin : ¬ (0 ≤ j ∧ j < 0 + ops.length) := by omega
      rw [if_neg hnin, if_neg hj, if_neg hj]
      ring

theorem detailPhase_allSucceed (clock : Clock) (ops : List (OpInstance W))
    (M : Nat) (w : W) (hall : allSucceed ops) :
    (detailPhase clock ops M w).ok = true
    ∧ (detailPhase clock ops M w).acc.time_per_op
        = (List.range ops.length).map
            (fun j => ((List.range M).map (fun t => clock.spent t j)).sum) := by
  obtain ⟨h1, h2, h3⟩ := detailIters_allSucceed clock ops M 0 w
    ⟨List.replicate ops.length 0, [], [], [], []⟩ hall (by simp)
  refine ⟨h1, ?_⟩
  apply List.ext_getElem
  · simp only [detailPhase] at h2 ⊢
    simp only [h2]
    simp
  · intro j hj1 hj2
    simp only [detailPhase] at h1 h2 h3 hj1 ⊢
    have hlen : j < ops.length := by
      simpa using hj2
    have hgd := h3 j
    simp only [getD_replicate_zero, if_pos hlen, zero_add] at hgd
    rw [← List.getD_eq_getElem _ 0 hj1, hgd]
    rw [List.getElem_map]
    simp [List.range_eq_range']

theorem benchRuns_allSucceed (ops : List (OpInstance W)) (hall : allSucceed ops) :
    ∀ (n : Nat) (w : W), (benchRuns ops n w).ok = true := by
  intro n
  induction n with
  | zero => intro w; rfl
  | succ n' ih =>
    intro w
    have hr : (SimpleNet.Run ops w).ok = true := by
      rw [Run_allSucceed ops w hall]
    simp only [benchRuns, hr, if_true]
    exact ih (SimpleNet.Run ops w).ws

/-- The returned vector of a benchmark whose runs all succeed and whose run
counts pass the checks: `millis / main_runs`, then one entry per operator,
the operator's accumulated individual time (the sum of its measured times
over the `main_runs` detail iterations when `run_individual` is set, `0`
otherwise) divided by `main_runs`. -/
theorem bench_result_shape (clock : Clock) (ops : List (OpInstance W))
    (warmup_runs main_runs : Int) (run_individual : Bool) (w : W)
    (hall : allSucceed ops) (hwr : 0 ≤ warmup_runs) (hmr : 0 ≤ main_runs) :
    (TEST_Benchmark clock ops warmup_runs main_runs run_individual w).result
      = Except.ok (fdiv clock.millis (main_runs : ℚ)
          :: (List.range ops.length).map (fun j =>
              fdiv (if run_individual
                    then ((List.range main_runs.toNat).map
                           (fun t => clock.spent t j)).sum
                    else 0)
                (main_runs : ℚ))) := by
  have hnw : ¬ warmup_runs < 0 := not_lt.mpr hwr
  have hnm : ¬ main_runs < 0 := not_lt.mpr hmr
  have hwu := benchRuns_allSucceed ops hall warmup_runs.toNat w
  rw [TEST_Benchmark, if_neg hnw]
  simp only [hwu, Bool.not_true, Bool.false_eq_true, if_false, if_neg hnm]
  have hmn := benchRuns_allSucceed ops hall main_runs.toNat
    (benchRuns ops warmup_runs.toNat w).ws
  simp only [hmn, Bool.not_true, Bool.false_eq_true, if_false]
  cases run_individual with
  | false =>
    simp only [Bool.false_eq_true, if_false, finalTimes]
    congr 1
    congr 1
    rw [List.map_replicate]
    rw [show List.replicate ops.length (fdiv 0 (main_runs : ℚ))
        = (List.range ops.length).map (fun _ => fdiv 0 (main_runs : ℚ)) by
      rw [List.map_const', List.length_range]]
  | true =>
    obtain ⟨hd1, hd2⟩ := detailPhase_allSucceed clock ops main_runs.toNat
      (benchRuns ops main_runs.toNat (benchRuns ops warmup_runs.toNat w).ws).ws
      hall
    simp only [hd1, Bool.not_true, Bool.false_eq_true, if_false, if_true,
      finalTimes, hd2, List.map_map]
    rfl

/-! ## Claim theorems: Run / RunAsync / construction -/

/-- C1: on a net whose instances all succeed, `SimpleNet::Run` returns
`true`, and the event trace shows each instance's `Run()` invoked exactly
once, in list order (positions `0, 1, ..., N-1`), bracketed by the observer
start and stop notifications. -/
theorem run_allSucceed_order (ops : List (OpInstance W)) (w : W)
    (hall : allSucceed ops) :
    (SimpleNet.Run ops w).ok = true
    ∧ (SimpleNet.Run ops w).trace
        = Event.obsStart :: (List.range ops.length).map Event.opRun
            ++ [Event.obsStop] := by
  rw [Run_allSucceed ops w hall]
  exact ⟨rfl, rfl⟩

theorem run_allSucceed_order_witness :
    allSucceed [succOp, succOp]
    ∧ ((SimpleNet.Run [succOp, succOp] 0).ok = true
       ∧ (SimpleNet.Run [succOp, succOp] 0).trace
           = Event.obsStart :: (List.range 2).map Event.opRun
               ++ [Event.obsStop]) :=
  ⟨allSucceed_succOp_pair,
   run_allSucceed_order [succOp, succOp] 0 allSucceed_succOp_pair⟩

/-- C2: when the instance at position `k = pre.length` fails while all
earlier instances succeed, `SimpleNet::Run` returns `false`, only positions
`0..k` were invoked (the later instances never run), and the final workspace
is exactly the one produced by threading the completed runs and the failing
run — nothing is undone. -/
theorem run_failure_stops (pre post : List (OpInstance W))
    (opk : OpInstance W) (w : W) (hpre : allSucceed pre)
    (hk : ∀ w' : W, (opk.run w').1 = false) :
    (SimpleNet.Run (pre ++ opk :: post) w).ok = false
    ∧ (SimpleNet.Run (pre ++ opk :: post) w).trace
        = Event.obsStart :: (List.range (pre.length + 1)).map Event.opRun
    ∧ (SimpleNet.Run (pre ++ opk :: post) w).ws
        = threadState (pre ++ [opk]) w := by
  have hfail : runOpsFrom (opk :: post) (0 + pre.length) (threadState pre w)
      = (false, (opk.run (threadState pre w)).2,
         [Event.opRun (0 + pre.length)]) := by
    simp [runOpsFrom, hk (threadState pre w)]
  have hrun := runOpsFrom_append pre (opk :: post) 0 w hpre
  rw [hfail] at hrun
  have hws : threadState (pre ++ [opk]) w
      = (opk.run (threadState pre w)).2 := by
    simp [threadState, List.foldl_append]
  refine ⟨?_, ?_, ?_⟩
  · simp [SimpleNet.Run, hrun]
  · simp only [SimpleNet.Run, hrun, Bool.false_eq_true, if_false]
    simp [List.range_succ, List.range_eq_range', Nat.zero_add]
  · simp [SimpleNet.Run, hrun, hws]

theorem run_failure_stops_witness :
    allSucceed [succOp]
    ∧ (∀ w' : Nat, (failOp.run w').1 = false)
    ∧ ((SimpleNet.Run ([succOp] ++ failOp :: [succOp]) 0).ok = false
       ∧ (SimpleNet.Run ([succOp] ++ failOp :: [succOp]) 0).trace
           = Event.obsStart :: (List.range ([succOp].length + 1)).map Event.opRun
       ∧ (SimpleNet.Run ([succOp] ++ failOp :: [succOp]) 0).ws
           = threadState ([succOp] ++ [failOp]) 0) :=
  ⟨allSucceed_succOp_single, failOp_fails,
   run_failure_stops [succOp] [succOp] failOp 0 allSucceed_succOp_single
     failOp_fails⟩

/-- C7: on every call of `SimpleNet::Run` the observer start notification
fires exactly once; the stop notification fires exactly once when the call
returns `true` and never when it returns `false`. -/
theorem run_observer_asymmetry (ops : List (OpInstance W)) (w : W) :
    (SimpleNet.Run ops w).trace.count Event.obsStart = 1
    ∧ (SimpleNet.Run ops w).trace.count Event.obsStop
        = (if (SimpleNet.Run ops w).ok then 1 else 0) := by
  obtain ⟨hstart, hstop⟩ := runOpsFrom_count_obs ops 0 w
  by_cases hr : (runOpsFrom ops 0 w).1 = true
  · simp [SimpleNet.Run, hr, List.count_cons, List.count_append, hstart, hstop]
  · simp only [Bool.not_eq_true] at hr
    simp [SimpleNet.Run, hr, List.count_cons, hstart, hstop]

/-- C8: `SimpleNet::RunAsync` is literally `Run`: same returned flag, same
final workspace, same observable event trace, for every net and workspace. -/
theorem runAsync_eq_run (ops : List (OpInstance W)) (w : W) :
    SimpleNet.RunAsync ops w = SimpleNet.Run ops w := rfl

/-- C6: the constructor builds one instance per descriptor, in order; a
descriptor without a device option, in a net with a default one, is
instantiated from a copy carrying the net's device option (only that field
changes); a descriptor with its own device option is instantiated from the
unchanged descriptor, so its placement is never overwritten.  (The input
`NetDef` is a value, so the original descriptors are unmodified by
construction.) -/
theorem construct_device_propagation (net_def : NetDef) (idx : Nat)
    (h : idx < net_def.op.length) :
    (constructDefs net_def).length = net_def.op.length
    ∧ (∀ d : DeviceOption,
        net_def.op[idx].device_option = none →
        net_def.device_option = some d →
        (constructDefs net_def)[idx]?
          = some { net_def.op[idx] with device_option := some d })
    ∧ (∀ d0 : DeviceOption,
        net_def.op[idx].device_option = some d0 →
        (constructDefs net_def)[idx]? = some net_def.op[idx]) := by
  refine ⟨by simp [constructDefs], ?_, ?_⟩
  · intro d hop hnet
    simp [constructDefs, List.getElem?_map, List.getElem?_eq_getElem h,
      effectiveOpDef, OperatorDef.has_device_option, NetDef.has_device_option,
      hop, hnet]
  · intro d0 hop
    simp [constructDefs, List.getElem?_map, List.getElem?_eq_getElem h,
      effectiveOpDef, OperatorDef.has_device_option, hop]

/-! ## Lemmas about the per-metric report -/

theorem PairLargerThan_true {x y : String × ℚ} :
    PairLargerThan x y = true ↔ y.2 < x.2 := by
  simp [PairLargerThan]

theorem PairLargerThan_false {x y : String × ℚ} :
    PairLargerThan x y = false ↔ x.2 ≤ y.2 := by
  simp [PairLargerThan]

theorem StdSortedBy_pairwise_le {m s : List (String × ℚ)}
    (h : StdSortedBy PairLargerThan m s) :
    s.Pairwise (fun a b => b.2 ≤ a.2) :=
  h.2.imp (fun hab => PairLargerThan_false.mp hab)

theorem foldl_add_mul (norm : ℚ) (l : List (String × ℚ)) (a : ℚ) :
    l.foldl (fun t p => t + p.2 * norm) a
      = a + (l.map (fun p => p.2 * norm)).sum := by
  induction l generalizing a with
  | nil => simp
  | cons x xs ih => simp [ih, add_assoc]

theorem metricTotalOn_eq_sum (s : List (String × ℚ)) (norm : ℚ) :
    metricTotalOn s norm = (s.map (fun p => p.2 * norm)).sum := by
  rw [metricTotalOn, foldl_add_mul]
  ring

theorem metricTotalOn_perm {m s : List (String × ℚ)} (norm : ℚ)
    (h : s.Perm m) :
    metricTotalOn s norm = (m.map (fun p => p.2 * norm)).sum := by
  rw [metricTotalOn_eq_sum]
  exact (h.map _).sum_eq

theorem metricReport_properties (m s : List (String × ℚ)) (norm : ℚ)
    (h : StdSortedBy PairLargerThan m s) :
    s.Perm m
    ∧ s.Pairwise (fun a b => b.2 ≤ a.2)
    ∧ metricTotalOn s norm = (m.map (fun p => p.2 * norm)).sum
    ∧ (0 < metricTotalOn s norm → ∀ v : ℚ,
        reportPercentOn (metricTotalOn s norm) v norm
          = 100 * v * norm / metricTotalOn s norm)
    ∧ (metricTotalOn s norm = 0 → ∀ v : ℚ,
        reportPercentOn (metricTotalOn s norm) v norm = 0)
    ∧ (metricReportOn s norm).getLast?
        = some (ReportLine.total (metricTotalOn s norm)) := by
  refine ⟨h.1, StdSortedBy_pairwise_le h, metricTotalOn_perm norm h.1,
    ?_, ?_, ?_⟩
  · intro hpos v
    rw [reportPercentOn, if_pos hpos]
  · intro hz v
    rw [reportPercentOn, hz]
    norm_num
  · rw [metricReportOn, List.getLast?_concat]

theorem stdSorted_nil : StdSortedBy PairLargerThan [] [] :=
  ⟨List.Perm.refl [], List.Pairwise.nil⟩

theorem stdSorted_sortW :
    StdSortedBy PairLargerThan accW.time_per_op_type sortW := by
  constructor
  · exact List.Perm.swap _ _ _
  · refine List.pairwise_cons.mpr ⟨?_, List.pairwise_singleton _ _⟩
    intro a ha
    rw [List.mem_singleton] at ha
    subst ha
    rw [PairLargerThan_false]
    norm_num [sortW]

theorem benchReportOf_reportsW : BenchReportOf accW (1 : ℚ) reportsW :=
  ⟨sortW, [], [], [], stdSorted_sortW, stdSorted_nil, stdSorted_nil,
   stdSorted_nil, rfl⟩

/-! ## Claim theorems: benchmark -/

/-- C9 counterexample: the program fixes no tie order.  For the two-entry
map `tieMap` with equal values, both the traversal order and the reversed
order satisfy the full `std::sort` postcondition with `PairLargerThan`, and
they differ — so "ties broken by traversal order" is not a property of the
code, whose `std::sort` (line 278) leaves the order of equal-valued entries
unspecified. -/
theorem bench_report_tie_cex :
    StdSortedBy PairLargerThan tieMap tieRev
    ∧ StdSortedBy PairLargerThan tieMap tieMap
    ∧ tieRev ≠ tieMap := by
  refine ⟨⟨List.Perm.swap _ _ _, ?_⟩, ⟨List.Perm.refl _, ?_⟩, ?_⟩
  · refine List.pairwise_cons.mpr ⟨?_, List.pairwise_singleton _ _⟩
    intro a ha
    rw [List.mem_singleton] at ha
    subst ha
    rw [PairLargerThan_false]
  · refine List.pairwise_cons.mpr ⟨?_, List.pairwise_singleton _ _⟩
    intro a ha
    rw [List.mem_singleton] at ha
    subst ha
    rw [PairLargerThan_false]
  · intro hc
    have : tieRev.head? = tieMap.head? := by rw [hc]
    simp [tieRev, tieMap] at this

/-- C9 amended: in the detail-mode report each of the four metrics (time,
flops, memory moved, parameter bytes) lists its per-type map's entries —
exactly once each — in descending order of aggregated value, with the order
of equal-valued types unspecified (`std::sort` is not stable); each entry
carries its normalised value and its percentage of the metric total,
`100 * value * normalizer / total` when the total is positive and `0` when
the total is zero; the grand total (the sum over the map, independent of the
sort order chosen) is the last line.  The normalizers are `1/main_runs`,
`1e-9`, `1e-6`, `1e-6`. -/
theorem bench_report_order (acc : BAcc) (mq : ℚ)
    (reports : List (List ReportLine)) (h : BenchReportOf acc mq reports) :
    reports.length = 4
    ∧ ∀ lines ∈ reports, ∃ m norm s,
        (m = acc.time_per_op_type ∨ m = acc.flops_per_op_type
          ∨ m = acc.memory_bytes_per_op_type ∨ m = acc.param_bytes_per_op_type)
        ∧ StdSortedBy PairLargerThan m s
        ∧ lines = metricReportOn s norm
        ∧ s.Perm m
        ∧ s.Pairwise (fun a b => b.2 ≤ a.2)
        ∧ metricTotalOn s norm = (m.map (fun p => p.2 * norm)).sum
        ∧ (0 < metricTotalOn s norm → ∀ v : ℚ,
            reportPercentOn (metricTotalOn s norm) v norm
              = 100 * v * norm / metricTotalOn s norm)
        ∧ (metricTotalOn s norm = 0 → ∀ v : ℚ,
            reportPercentOn (metricTotalOn s norm) v norm = 0)
        ∧ lines.getLast? = some (ReportLine.total (metricTotalOn s norm)) := by
  obtain ⟨s1, s2, s3, s4, h1, h2, h3, h4, hr⟩ := h
  subst hr
  refine ⟨rfl, ?_⟩
  intro lines hl
  simp only [List.mem_cons, List.not_mem_nil, or_false] at hl
  rcases hl with rfl | rfl | rfl | rfl
  · obtain ⟨p1, p2, p3, p4, p5, p6⟩ :=
      metricReport_properties _ s1 (1 / mq) h1
    exact ⟨acc.time_per_op_type, 1 / mq, s1, Or.inl rfl, h1, rfl,
      p1, p2, p3, p4, p5, p6⟩
  · obtain ⟨p1, p2, p3, p4, p5, p6⟩ :=
      metricReport_properties _ s2 (1 / 1000000000) h2
    exact ⟨acc.flops_per_op_type, 1 / 1000000000, s2, Or.inr (Or.inl rfl),
      h2, rfl, p1, p2, p3, p4, p5, p6⟩
  · obtain ⟨p1, p2, p3, p4, p5, p6⟩ :=
      metricReport_properties _ s3 (1 / 1000000) h3
    exact ⟨acc.memory_bytes_per_op_type, 1 / 1000000, s3,
      Or.inr (Or.inr (Or.inl rfl)), h3, rfl, p1, p2, p3, p4, p5, p6⟩
  · obtain ⟨p1, p2, p3, p4, p5, p6⟩ :=
      metricReport_properties _ s4 (1 / 1000000) h4
    exact ⟨acc.param_bytes_per_op_type, 1 / 1000000, s4,
      Or.inr (Or.inr (Or.inr rfl)), h4, rfl, p1, p2, p3, p4, p5, p6⟩

theorem bench_report_order_witness :
    BenchReportOf accW (1 : ℚ) reportsW
    ∧ (reportsW.length = 4
       ∧ ∀ lines ∈ reportsW, ∃ m norm s,
           (m = accW.time_per_op_type ∨ m = accW.flops_per_op_type
             ∨ m = accW.memory_bytes_per_op_type
             ∨ m = accW.param_bytes_per_op_type)
           ∧ StdSortedBy PairLargerThan m s
           ∧ lines = metricReportOn s norm
           ∧ s.Perm m
           ∧ s.Pairwise (fun a b => b.2 ≤ a.2)
           ∧ metricTotalOn s norm = (m.map (fun p => p.2 * norm)).sum
           ∧ (0 < metricTotalOn s norm → ∀ v : ℚ,
               reportPercentOn (metricTotalOn s norm) v norm
                 = 100 * v * norm / metricTotalOn s norm)
           ∧ (metricTotalOn s norm = 0 → ∀ v : ℚ,
               reportPercentOn (metricTotalOn s norm) v norm = 0)
           ∧ lines.getLast? = some (ReportLine.total (metricTotalOn s norm))) :=
  ⟨benchReportOf_reportsW,
   bench_report_order accW 1 reportsW benchReportOf_reportsW⟩

theorem fdiv_one (x : ℚ) : fdiv x 1 = F.fin x := by
  norm_num [fdiv]

/-- C4: for every net of all-succeeding instances and every
`warmup_runs ≥ 0`, `main_runs ≥ 1`, the benchmark returns the overall mean
iteration time first, followed by exactly one entry per operator instance,
in instance order: the instance's accumulated individual time (sum of its
measured times over the `main_runs` detail iterations when `run_individual`
is set, `0` otherwise) divided by `main_runs`. -/
theorem bench_return_vector (clock : Clock) (ops : List (OpInstance W))
    (warmup_runs main_runs : Int) (run_individual : Bool) (w : W)
    (hall : allSucceed ops) (hwr : 0 ≤ warmup_runs) (hmr : 1 ≤ main_runs) :
    (TEST_Benchmark clock ops warmup_runs main_runs run_individual w).result
      = Except.ok (fdiv clock.millis (main_runs : ℚ)
          :: (List.range ops.length).map (fun j =>
              fdiv (if run_individual
                    then ((List.range main_runs.toNat).map
                           (fun t => clock.spent t j)).sum
                    else 0)
                (main_runs : ℚ))) :=
  bench_result_shape clock ops warmup_runs main_runs run_individual w hall hwr
    (le_trans zero_le_one hmr)

theorem bench_return_vector_witness :
    allSucceed [unitOp] ∧ (0 : Int) ≤ 0 ∧ (1 : Int) ≤ 1
    ∧ (TEST_Benchmark cClock [unitOp] 0 1 true ()).result
        = Except.ok (fdiv cClock.millis ((1 : Int) : ℚ)
            :: (List.range ([unitOp] : List (OpInstance Unit)).length).map
                (fun j =>
                  fdiv (if true
                        then ((List.range (1 : Int).toNat).map
                               (fun t => cClock.spent t j)).sum
                        else 0) ((1 : Int) : ℚ))) :=
  ⟨allSucceed_unitOp, le_refl 0, le_refl 1,
   bench_return_vector cClock [unitOp] 0 1 true () allSucceed_unitOp
     (le_refl 0) (le_refl 1)⟩

/-- C3 counterexample: on a one-operator all-succeeding net,
`TEST_Benchmark(0, 1, false)` returns a two-element vector — the mean total
time and one zero per-operator entry — not a one-element one. -/
theorem bench_no_detail_cex :
    (TEST_Benchmark cClock [unitOp] 0 1 false ()).result
      = Except.ok [F.fin 5, F.fin 0]
    ∧ ([F.fin 5, F.fin 0] : List F).length ≠ 1 := by
  constructor
  · simp [TEST_Benchmark, benchRuns, SimpleNet.Run, runOpsFrom, unitOp, cClock,
      finalTimes, fdiv]
  · decide

/-- C3 amended: `TEST_Benchmark(0, 1, false)` on an all-succeeding net
returns the mean total iteration time followed by one zero entry per
operator instance (`time_per_op` was zero-initialised and the detail phase
was skipped, so each entry is `0 / 1`); the vector has `N + 1` elements,
one-element only for a zero-operator net. -/
theorem bench_no_detail_shape (clock : Clock) (ops : List (OpInstance W))
    (w : W) (hall : allSucceed ops) :
    (TEST_Benchmark clock ops 0 1 false w).result
      = Except.ok (F.fin clock.millis :: List.replicate ops.length (F.fin 0))
    ∧ (F.fin clock.millis :: List.replicate ops.length (F.fin 0)).length
        = ops.length + 1 := by
  have h := bench_result_shape clock ops 0 1 false w hall le_rfl zero_le_one
  refine ⟨?_, by simp⟩
  rw [h]
  congr 1
  congr 1
  · rw [show ((1 : Int) : ℚ) = 1 by norm_num, fdiv_one]
  · rw [show (List.replicate ops.length (F.fin 0))
        = (List.range ops.length).map (fun _ => F.fin 0) by
      rw [List.map_const', List.length_range]]
    refine List.map_congr_left ?_
    intro j hj
    simp only [Bool.false_eq_true, if_false]
    rw [show ((1 : Int) : ℚ) = 1 by norm_num, fdiv_one]

theorem bench_no_detail_shape_witness :
    allSucceed [unitOp]
    ∧ ((TEST_Benchmark cClock [unitOp] 0 1 false ()).result
        = Except.ok (F.fin cClock.millis
            :: List.replicate ([unitOp] : List (OpInstance Unit)).length (F.fin 0))
       ∧ (F.fin cClock.millis
            :: List.replicate ([unitOp] : List (OpInstance Unit)).length
                (F.fin 0)).length
           = ([unitOp] : List (OpInstance Unit)).length + 1) :=
  ⟨allSucceed_unitOp, bench_no_detail_shape cClock [unitOp] () allSucceed_unitOp⟩

/-- C5 counterexample: with `warmup_runs = 1` and `main_runs = -1` on a
one-operator all-succeeding net, the call does abort on the fatal
`main_runs` check, but the operator's `Run()` has already been invoked once
by then: the warmup loop precedes that check. -/
theorem bench_negative_cex :
    (TEST_Benchmark cClock [unitOp] 1 (-1) false ()).result
      = Except.error BenchAbort.mainNegative
    ∧ (TEST_Benchmark cClock [unitOp] 1 (-1) false ()).trace.count
        (Event.opRun 0) = 1 := by
  constructor
  · rfl
  · rfl

/-- C5 amended: a negative `warmup_runs` aborts before any operator
invocation (the trace is empty); a negative `main_runs` with a valid
`warmup_runs` aborts before any main-phase run, but only after the
`warmup_runs` warmup iterations have already invoked the operators (the
trace is exactly the warmup loop's trace). -/
theorem bench_negative_aborts (clock : Clock) (ops : List (OpInstance W))
    (warmup_runs main_runs : Int) (run_individual : Bool) (w : W)
    (hall : allSucceed ops) :
    (warmup_runs < 0 →
      (TEST_Benchmark clock ops warmup_runs main_runs run_individual w).result
        = Except.error BenchAbort.warmupNegative
      ∧ (TEST_Benchmark clock ops warmup_runs main_runs run_individual w).trace
          = [])
    ∧ (0 ≤ warmup_runs → main_runs < 0 →
      (TEST_Benchmark clock ops warmup_runs main_runs run_individual w).result
        = Except.error BenchAbort.mainNegative
      ∧ (TEST_Benchmark clock ops warmup_runs main_runs run_individual w).trace
          = (benchRuns ops warmup_runs.toNat w).trace) := by
  constructor
  · intro hneg
    rw [TEST_Benchmark, if_pos hneg]
    exact ⟨rfl, rfl⟩
  · intro hwr hmr
    have hnw : ¬ warmup_runs < 0 := not_lt.mpr hwr
    have hwu := benchRuns_allSucceed ops hall warmup_runs.toNat w
    rw [TEST_Benchmark, if_neg hnw]
    simp only [hwu, Bool.not_true, Bool.false_eq_true, if_false, if_pos hmr]
    exact ⟨by trivial, by trivial⟩

theorem bench_negative_aborts_witness :
    allSucceed [unitOp]
    ∧ (((1 : Int) < 0 →
        (TEST_Benchmark cClock [unitOp] 1 (-1) false ()).result
          = Except.error BenchAbort.warmupNegative
        ∧ (TEST_Benchmark cClock [unitOp] 1 (-1) false ()).trace = [])
      ∧ ((0 : Int) ≤ 1 → (-1 : Int) < 0 →
        (TEST_Benchmark cClock [unitOp] 1 (-1) false ()).result
          = Except.error BenchAbort.mainNegative
        ∧ (TEST_Benchmark cClock [unitOp] 1 (-1) false ()).trace
            = (benchRuns [unitOp] (1 : Int).toNat ()).trace)) :=
  ⟨allSucceed_unitOp,
   bench_negative_aborts cClock [unitOp] 1 (-1) false () allSucceed_unitOp⟩

/-- C10: with `main_runs = 0` — which passes the `main_runs >= 0` check —
the final mean computations divide by zero: the returned vector is
`millis / 0` followed by one `0 / 0` entry per operator, and its first
element, the reported mean total iteration time, is not a finite value
(it is an infinity or NaN). -/
theorem bench_zero_main_runs (clock : Clock) (ops : List (OpInstance W))
    (warmup_runs : Int) (run_individual : Bool) (w : W)
    (hall : allSucceed ops) (hwr : 0 ≤ warmup_runs) :
    (TEST_Benchmark clock ops warmup_runs 0 run_individual w).result
      = Except.ok (fdiv clock.millis 0
          :: List.replicate ops.length (fdiv 0 0))
    ∧ ∀ q : ℚ, fdiv clock.millis 0 ≠ F.fin q := by
  have h := bench_result_shape clock ops warmup_runs 0 run_individual w hall
    hwr le_rfl
  constructor
  · rw [h]
    simp only [Int.cast_zero, Int.toNat_zero, List.range_zero, List.map_nil,
      List.sum_nil, ite_self]
    rw [List.map_const', List.length_range]
  · intro q
    rw [fdiv, if_pos rfl]
    split_ifs <;> intro hc <;> cases hc

theorem bench_zero_main_runs_witness :
    allSucceed [unitOp] ∧ (0 : Int) ≤ 0
    ∧ ((TEST_Benchmark cClock [unitOp] 0 0 false ()).result
        = Except.ok (fdiv cClock.millis 0
            :: List.replicate ([unitOp] : List (OpInstance Unit)).length
                (fdiv 0 0))
       ∧ ∀ q : ℚ, fdiv cClock.millis 0 ≠ F.fin q) :=
  ⟨allSucceed_unitOp, le_refl 0,
   bench_zero_main_runs cClock [unitOp] 0 false () allSucceed_unitOp
     (le_refl 0)⟩

theorem construct_device_propagation_witness :
    (0 < netAB.op.length ∧ 1 < netAB.op.length)
    ∧ ((constructDefs netAB).length = netAB.op.length
       ∧ (∀ d : DeviceOption,
           (netAB.op.get ⟨0, by decide⟩).device_option = none →
           netAB.device_option = some d →
           (constructDefs netAB)[0]?
             = some { netAB.op.get ⟨0, by decide⟩ with device_option := some d }))
    ∧ (∀ d0 : DeviceOption,
        (netAB.op.get ⟨1, by decide⟩).device_option = some d0 →
        (constructDefs netAB)[1]? = some (netAB.op.get ⟨1, by decide⟩)) :=
  ⟨⟨by decide, by decide⟩,
   ⟨(construct_device_propagation netAB 0 (by decide)).1,
    (construct_device_propagation netAB 0 (by decide)).2.1⟩,
   (construct_device_propagation netAB 1 (by decide)).2.2⟩

end Caffe2
